import Mathlib

/-!
Verification of the ownership-resolution core of `go-github-codeowners`
(`codeowners/codeowners.go`): glob-based rule selection, owner-token
classification, team / user / email expansion against an abstract remote
directory service, and the channel aggregation loop of `Match`.

Conventions of the embedding:
* Go strings are Lean `String`s; byte indices computed by the Go code are
  modelled as character indices.  Every index the source computes is the
  position of a 1-byte ASCII character (`'@'`, `'/'`), where byte and
  character slicing coincide for all valid UTF-8 input.
* Each goroutine's sends on the `data` / `err` channels are collected into
  lists, concatenated in spawn order; the nondeterministic arrival order at
  the channels is modelled separately by the aggregation loop over an
  arbitrary event trace (`aggLoop`).
* Remote calls issued to the GitHub client are recorded in a `calls` list,
  so that "no remote lookup is performed" is a statement about the model.
-/

deriving instance DecidableEq for Except

namespace Codeowners

/-! ## Model of `doublestar.Match` (github.com/bmatcuk/doublestar v1)

`Match` splits pattern and name on `'/'` and matches the segment lists,
where a `**` segment matches any number of name segments and each other
segment is matched by `matchComponent` (supporting `\`-escapes, `?`, `*`
and `[...]` character classes; the `{...}` alternate syntax of doublestar
is not modelled and a `\x7b` is treated as a literal character — no rule
pattern in any claim uses alternates).

The Go original scans each pattern component while matching and reports
`ErrBadPattern` only when the scan reaches the malformed fragment; the
model tokenises the component first and reports the syntax error for any
name.  Both agree on the matched boolean, which is the only value the
repository consumes — `Match` discards the error (`codeowners.go:182`). -/

/-- One item of a `[...]` character class: an inclusive codepoint range
(a single character `c` is the range `c-c`). -/
inductive ClsItem where
  | range (lo hi : Char)
deriving DecidableEq

/-- One token of a glob pattern component. -/
inductive PatTok where
  | lit (c : Char)
  | anyChar
  | star
  | cls (negate : Bool) (items : List ClsItem)
deriving DecidableEq

/-- Parses the raw content of a `[...]` class (between the brackets, after
the optional `^`) into range items; `\`-escapes bind the next character,
and a trailing `-` or trailing escape is a bad pattern (`none`). -/
def parseClassItems : List Char → Option (List ClsItem)
  | [] => some []
  | '\\' :: [] => none
  | '\\' :: _ :: '-' :: [] => none
  | '\\' :: _ :: '-' :: '\\' :: [] => none
  | '\\' :: c :: '-' :: '\\' :: d :: rest =>
    (parseClassItems rest).map (fun l => ClsItem.range c d :: l)
  | '\\' :: c :: '-' :: d :: rest =>
    (parseClassItems rest).map (fun l => ClsItem.range c d :: l)
  | '\\' :: c :: rest =>
    (parseClassItems rest).map (fun l => ClsItem.range c c :: l)
  | _ :: '-' :: [] => none
  | _ :: '-' :: '\\' :: [] => none
  | c :: '-' :: '\\' :: d :: rest =>
    (parseClassItems rest).map (fun l => ClsItem.range c d :: l)
  | c :: '-' :: d :: rest =>
    (parseClassItems rest).map (fun l => ClsItem.range c d :: l)
  | c :: rest =>
    (parseClassItems rest).map (fun l => ClsItem.range c c :: l)

/-- Builds the class token from the raw bracket content: an empty class is
a bad pattern, a leading `^` negates. -/
def classTok (content : List Char) : Option PatTok :=
  match content with
  | [] => none
  | '^' :: rest => (parseClassItems rest).map (PatTok.cls true)
  | rest => (parseClassItems rest).map (PatTok.cls false)

/-- Single-pass tokeniser for one pattern component.  The second argument
is `some buf` (reversed raw content) while scanning inside a `[...]`
class; `acc` holds the reversed tokens produced so far.  A trailing `\`
or an unclosed `[` yields `none` (doublestar's `ErrBadPattern`). -/
def parseCompAux : List Char → Option (List Char) → List PatTok → Option (List PatTok)
  | [], none, acc => some acc.reverse
  | [], some _, _ => none
  | '\\' :: [], _, _ => none
  | '\\' :: c :: rest, none, acc => parseCompAux rest none (.lit c :: acc)
  | '\\' :: c :: rest, some buf, acc => parseCompAux rest (some (c :: '\\' :: buf)) acc
  | '[' :: rest, none, acc => parseCompAux rest (some []) acc
  | ']' :: rest, some buf, acc =>
    match classTok buf.reverse with
    | none => none
    | some t => parseCompAux rest none (t :: acc)
  | '*' :: rest, none, acc => parseCompAux rest none (.star :: acc)
  | '?' :: rest, none, acc => parseCompAux rest none (.anyChar :: acc)
  | c :: rest, none, acc => parseCompAux rest none (.lit c :: acc)
  | c :: rest, some buf, acc => parseCompAux rest (some (c :: buf)) acc

/-- Tokenises one glob pattern component; `none` is doublestar's
`ErrBadPattern`. -/
def parseComponent (p : List Char) : Option (List PatTok) :=
  parseCompAux p none []

/-- Does character `c` fall in class item `i`? -/
def clsItemMatches (c : Char) : ClsItem → Bool
  | .range lo hi => decide (lo ≤ c) && decide (c ≤ hi)

/-- Class match: some item contains the character, xor negation
(mirrors doublestar's `matchClass == negate` rejection). -/
def clsMatches (negate : Bool) (items : List ClsItem) (c : Char) : Bool :=
  (items.any (clsItemMatches c)) != negate

/-- Tries `f` on every suffix of the list, the empty suffix included
(doublestar's `for ; nameIdx <= nameLen` loop in the `*` case). -/
def tryTails (f : List Char → Bool) : List Char → Bool
  | [] => f []
  | c :: cs => f (c :: cs) || tryTails f cs

/-- Matches a tokenised pattern component against the characters of one
name component, mirroring doublestar v1 `matchComponent`: when the name is
exhausted the remaining pattern must be empty or exactly `*`; a `*` token
last in the pattern matches any remainder, otherwise every suffix of the
name is tried. -/
def matchToks : List PatTok → List Char → Bool
  | [], [] => true
  | [], _ :: _ => false
  | [.star], [] => true
  | _ :: _, [] => false
  | .star :: ts, n :: ns =>
    match ts with
    | [] => true
    | _ :: _ => tryTails (fun s => matchToks ts s) (n :: ns)
  | .lit c :: ts, n :: ns => c = n && matchToks ts ns
  | .anyChar :: ts, _ :: ns => matchToks ts ns
  | .cls negate items :: ts, n :: ns =>
    clsMatches negate items n && matchToks ts ns

/-- doublestar v1 `matchComponent`: `Except.error ()` is `ErrBadPattern`
(always paired with `matched = false` in the Go original). -/
def matchComponent (p n : List Char) : Except Unit Bool :=
  match parseComponent p with
  | none => .error ()
  | some ts => .ok (matchToks ts n)

/-- Collapses a doublestar result to the boolean the repository consumes;
every error path of the Go original carries `matched = false`. -/
def exceptBool : Except Unit Bool → Bool
  | .ok b => b
  | .error _ => false

/-- Tries `f` on every nonempty suffix of the segment list (doublestar's
`for ; nameIdx < nameLen` loop in the `**` case; errors of the recursive
`doMatching` calls are discarded there). -/
def trySuffixSegs (f : List (List Char) → Bool) : List (List Char) → Bool
  | [] => false
  | n :: ns => f (n :: ns) || trySuffixSegs f ns

/-- doublestar v1 `doMatching` on segment lists: a `**` segment last in
the pattern matches everything; otherwise the rest of the pattern is
tried against every nonempty suffix of the name segments. -/
def doMatching : List (List Char) → List (List Char) → Except Unit Bool
  | [], [] => .ok true
  | [], _ :: _ => .ok false
  | _ :: _, [] => .ok false
  | p :: ps, n :: ns =>
    if p = ['*', '*'] then
      match ps with
      | [] => .ok true
      | _ :: _ => .ok (trySuffixSegs (fun s => exceptBool (doMatching ps s)) (n :: ns))
    else
      match matchComponent p n with
      | .error e => .error e
      | .ok false => .ok false
      | .ok true => doMatching ps ns

/-- `strings.Split` on a single separator character: `""` splits to
`[""]`, separators delimit possibly empty components. -/
def splitOnChar (sep : Char) : List Char → List (List Char)
  | [] => [[]]
  | c :: cs =>
    if c = sep then [] :: splitOnChar sep cs
    else
      match splitOnChar sep cs with
      | [] => [[c]]
      | w :: ws => (c :: w) :: ws

/-- `doublestar.Match pattern name`: split both on `'/'` and match the
segment lists. -/
def dsMatch (pattern name : String) : Except Unit Bool :=
  doMatching (splitOnChar '/' pattern.toList) (splitOnChar '/' name.toList)

/-- The boolean the repository keeps from `doublestar.Match` — the error
is discarded by `match, _ := doublestar.Match(...)` (`codeowners.go:182`). -/
def dsMatchBool (pattern name : String) : Bool :=
  exceptBool (dsMatch pattern name)

/-! ## Data model

`github.User` carries many optional fields; the repository reads and
writes only `Login`, `Name` and `Email`, so the model keeps those. -/

/-- The fields of `github.User` the repository uses (`nil` = `none`). -/
structure User where
  login : Option String
  name : Option String
  email : Option String
deriving DecidableEq

/-- The fields of `github.Team` the repository uses: `Slug` and `ID`
(Go `int64`, whose zero value doubles as `expandteam`'s sentinel). -/
structure Team where
  slug : String
  id : Int
deriving DecidableEq

/-- A remote call issued to the GitHub client during expansion. -/
inductive RemoteCall where
  | listTeams (org : String)
  | listTeamMembers (teamid : Int)
  | getUser (login : String)
deriving DecidableEq

/-- The error values sent on the `err` channel, by construction site:
`remote` is a passthrough client error; `parseMail` comes from
`mail.ParseAddress`; `teamNotFound` is `"Failed to find team matching %v"`;
`invalidToken` is `"Do not understand user specification"`; `noMatch` is
`"Failed to find match"`. -/
inductive ExpErr where
  | remote (msg : String)
  | parseMail (msg : String)
  | teamNotFound (slug : String)
  | invalidToken (tok : String)
  | noMatch
deriving DecidableEq

/-- Abstract remote directory service: the three GitHub client calls the
core depends on.  `listTeamMembers` yields the member logins (the Go code
dereferences each member's `Login` and uses nothing else). -/
structure Service where
  listTeams : String → Except String (List Team)
  listTeamMembers : Int → Except String (List User)
  getUser : String → Except String User

/-- The messages produced by one expansion task and all tasks it spawned:
users sent on the `data` channel, errors sent on the `err` channel (both
in spawn order) and the remote calls issued. -/
structure ExpandResult where
  users : List User
  errs : List ExpErr
  calls : List RemoteCall
deriving DecidableEq

/-- Concatenation of the messages of two task groups. -/
def ExpandResult.append (a b : ExpandResult) : ExpandResult :=
  ⟨a.users ++ b.users, a.errs ++ b.errs, a.calls ++ b.calls⟩

/-- `codeOwner`: a single line of a CODEOWNERS file (`codeowners.go:30`). -/
structure CodeOwner where
  path : String
  owners : List String
deriving DecidableEq

/-- `codeOwners`: the whole CODEOWNERS description (`codeowners.go:23`). -/
structure CodeOwners where
  owner : String
  repo : String
  patterns : List CodeOwner
deriving DecidableEq

/-! ## Model of `net/mail.ParseAddress`

Restricted to the address forms reachable from owner tokens, which are
whitespace-free (`strings.Fields` splits the manifest line on
whitespace): a bare `addr-spec` (`local@domain`, both dot-atoms), or a
`name-addr` (an optional atom display name, then `<addr-spec>`).
Comments, quoted strings, domain literals and group syntax are not
modelled.  As in the Go parser, the returned address is the parsed
`addr-spec` — for a `name-addr` input this differs from the raw input. -/

/-- RFC 5322 `atext`: the characters allowed in an atom. -/
def isAtext (c : Char) : Bool :=
  c.isAlphanum || c = '!' || c = '#' || c = '$' || c = '%' || c = '&' ||
  c = '*' || c = '+' || c = '-' || c = '/' || c = '=' || c = '?' ||
  c = '^' || c = '_' || c = '~' || c = '|' ||
  c = '\x27' || c = '\x60' || c = '\x7b' || c = '\x7d'

/-- `atext` or dot, the characters a dot-atom is made of. -/
def isAtextDot (c : Char) : Bool :=
  isAtext c || c = '.'

/-- `consumeAtom(dot = true)` of the Go parser: take the longest run of
dot-atom characters; it must be nonempty, must not start or end with a
dot and must not contain `".."`. -/
def consumeAtomDot (s : List Char) : Option (List Char × List Char) :=
  let atom := s.takeWhile isAtextDot
  let rest := s.dropWhile isAtextDot
  if atom = [] then none
  else if atom.head? = some '.' then none
  else if atom.getLast? = some '.' then none
  else if (atom.zip atom.tail).any (fun p => p.1 = '.' && p.2 = '.') then none
  else some (atom, rest)

/-- `consumeAddrSpec`: `dot-atom "@" dot-atom`, returning the consumed
spec and the unconsumed remainder. -/
def consumeAddrSpec (s : List Char) : Option (List Char × List Char) :=
  match consumeAtomDot s with
  | none => none
  | some (localPart, rest) =>
    match rest with
    | '@' :: rest2 =>
      match consumeAtomDot rest2 with
      | none => none
      | some (domain, rest3) => some (localPart ++ '@' :: domain, rest3)
    | _ => none

/-- `mail.ParseAddress` (restricted as described above): a bare
`addr-spec` consuming the whole input, else an optional display-name atom
followed by `<addr-spec>` consuming the whole input; everything else is a
parse error. -/
def parseAddress (s : String) : Except String String :=
  match consumeAddrSpec s.toList with
  | some (spec, []) => .ok (String.mk spec)
  | _ =>
    match s.toList.dropWhile isAtextDot with
    | '<' :: rest =>
      match consumeAddrSpec rest with
      | some (spec, ['>']) => .ok (String.mk spec)
      | _ => .error "mail: no angle-addr"
    | _ => .error "mail: no angle-addr"

/-! ## Token helpers (models of the `strings` calls of the source) -/

/-- `strings.HasPrefix(s, "@")`. -/
def startsWithAt (s : String) : Bool :=
  match s.toList with
  | c :: _ => c = '@'
  | [] => false

/-- `strings.Contains(s, c)` for a one-character needle. -/
def containsChar (s : String) (c : Char) : Bool :=
  s.toList.any (fun d => d = c)

/-- `s[1:]` — the Go code slices off the leading `'@'`, a 1-byte char. -/
def dropFirst (s : String) : String :=
  String.mk (s.toList.drop 1)

/-- `fullteam[1:split]` with `split := strings.Index(fullteam, "/")`
(`codeowners.go:101-102`): the text between the leading `'@'` and the
first `'/'`.  Exact for the callers of `expandteam`, which guarantee the
token starts with `'@'` and contains `'/'`. -/
def orgOf (fullteam : String) : String :=
  String.mk ((fullteam.toList.drop 1).takeWhile (fun c => c ≠ '/'))

/-- `fullteam[split+1:]` (`codeowners.go:107`): the text after the first
`'/'`. -/
def slugOf (fullteam : String) : String :=
  String.mk (((fullteam.toList.drop 1).dropWhile (fun c => c ≠ '/')).drop 1)

/-! ## Expansion tasks (`codeowners.go:74-147`) -/

/-- `fetchuser` (`codeowners.go:74`): one `Users.Get` call; on failure the
error is sent on `err`, on success the user is sent on `data`. -/
def fetchuser (svc : Service) (name : String) : ExpandResult :=
  match svc.getUser name with
  | .error e => ⟨[], [.remote e], [.getUser name]⟩
  | .ok u => ⟨[u], [], [.getUser name]⟩

/-- `finduseremail` (`codeowners.go:86`): parse the address; on failure
the parse error is sent on `err`, on success a `github.User` with only
`Email` set — to the parsed address — is sent on `data`.  No remote call
is made. -/
def finduseremail (email : String) : ExpandResult :=
  match parseAddress email with
  | .error e => ⟨[], [.parseMail e], []⟩
  | .ok addr => ⟨[⟨none, none, some addr⟩], [], []⟩

/-- The team-selection loop of `expandteam` (`codeowners.go:108-114`):
`teamid` starts at 0 and takes the ID of the first team whose slug equals
`teamname` (case-sensitive `==`), so it stays 0 both when no slug matches
and when the first matching team's ID is 0. -/
def findTeamId : List Team → String → Int
  | [], _ => 0
  | t :: ts, teamname => if teamname = t.slug then t.id else findTeamId ts teamname

/-- The member fan-out of `expandteam` (`codeowners.go:125-128`): one
`fetchuser` task per member login, messages concatenated in spawn order
after those already produced (`base`). -/
def expandMembers (svc : Service) (members : List String) (base : ExpandResult) : ExpandResult :=
  members.foldl (fun acc m => acc.append (fetchuser svc m)) base

/-- The logins the Go code dereferences from the member list
(`*user.Login`, `codeowners.go:127`); a member whose `Login` is `nil`
would panic in the original, the model reads `""`. -/
def memberLogins (users : List User) : List String :=
  users.map (fun u => u.login.getD "")

/-- `expandteam` (`codeowners.go:99`): list the org's teams, select by
slug via `findTeamId`, report `teamNotFound` on the zero sentinel, else
list the team's members and spawn one `fetchuser` per member. -/
def expandteam (svc : Service) (fullteam : String) : ExpandResult :=
  let org := orgOf fullteam
  match svc.listTeams org with
  | .error e => ⟨[], [.remote e], [.listTeams org]⟩
  | .ok teams =>
    let teamname := slugOf fullteam
    let teamid := findTeamId teams teamname
    if teamid = 0 then ⟨[], [.teamNotFound teamname], [.listTeams org]⟩
    else
      match svc.listTeamMembers teamid with
      | .error e => ⟨[], [.remote e], [.listTeams org, .listTeamMembers teamid]⟩
      | .ok members =>
        expandMembers svc (memberLogins members) ⟨[], [], [.listTeams org, .listTeamMembers teamid]⟩

/-- `expandowners` (`codeowners.go:132`): the four-way switch on the raw
owner token, checked in order. -/
def expandowners (svc : Service) (ownertext : String) : ExpandResult :=
  if startsWithAt ownertext && containsChar ownertext '/' then
    expandteam svc ownertext
  else if startsWithAt ownertext then
    fetchuser svc (dropFirst ownertext)
  else if containsChar ownertext '@' then
    finduseremail ownertext
  else
    ⟨[], [.invalidToken ownertext], []⟩

/-- The owner-token variants of the specification's classifier. -/
inductive OwnerToken where
  | teamRef (org slug : String)
  | userHandle (login : String)
  | email (address : String)
  | invalid (tok : String)
deriving DecidableEq

/-- The classification implicit in `expandowners`' switch: same
conditions, in the same order, with the team org/slug split of
`expandteam`. -/
def classify (tok : String) : OwnerToken :=
  if startsWithAt tok && containsChar tok '/' then .teamRef (orgOf tok) (slugOf tok)
  else if startsWithAt tok then .userHandle (dropFirst tok)
  else if containsChar tok '@' then .email tok
  else .invalid tok

/-! ## Manifest parsing (`Get`, `codeowners.go:161-173`) -/

/-- The whitespace class of Go's `strings.Fields` (`unicode.IsSpace`),
restricted to the ASCII and Latin-1 space characters. -/
def isSpaceGo (c : Char) : Bool :=
  c = ' ' || c = '\t' || c = '\n' || c = '\r' ||
  c = '\x0b' || c = '\x0c' || c = '\u0085' || c = '\u00A0'

/-- Accumulator pass of `strings.Fields`: split around runs of
whitespace, dropping empty fields. -/
def fieldsAux : List Char → List Char → List (List Char)
  | [], [] => []
  | [], cur => [cur.reverse]
  | c :: rest, cur =>
    if isSpaceGo c then
      match cur with
      | [] => fieldsAux rest []
      | _ :: _ => cur.reverse :: fieldsAux rest []
    else fieldsAux rest (c :: cur)

/-- `strings.Fields(line)`. -/
def strFields (line : String) : List String :=
  (fieldsAux line.toList []).map String.mk

/-- One iteration of `Get`'s manifest loop (`codeowners.go:162-171`): a
line with more than one field contributes one rule, its first field — a
lone `"*"` rewritten to `"**"` — as pattern and the remaining fields as
owners; any other line contributes nothing. -/
def parseLine (line : String) : List CodeOwner :=
  match strFields line with
  | w0 :: w1 :: rest => [⟨if w0 = "*" then "**" else w0, w1 :: rest⟩]
  | _ => []

/-- The rule sequence `Get` builds from the manifest text
(`codeowners.go:161-173`): split on `'\n'` and append each line's
contribution in order. -/
def getPatterns (content : String) : List CodeOwner :=
  ((splitOnChar '\n' content.toList).map String.mk).foldl
    (fun acc line => acc ++ parseLine line) []

/-! ## `Match` (`codeowners.go:179-229`) -/

/-- The selection loop of `Match` (`codeowners.go:180-186`): `owners`
starts `nil` (`none`) and every matching rule overwrites it, so the last
matching rule wins; the glob error is discarded. -/
def selectOwnersAux : List CodeOwner → String → Option (List String) → Option (List String)
  | [], _, acc => acc
  | p :: ps, path, acc =>
    selectOwnersAux ps path (if dsMatchBool p.path path then some p.owners else acc)

/-- The owners selected by `Match` for a path, `none` when no rule
matched. -/
def selectOwners (patterns : List CodeOwner) (path : String) : Option (List String) :=
  selectOwnersAux patterns path none

/-- The spawn loop of `Match` (`codeowners.go:197-200`): one
`expandowners` task per owner token of the selected rule, messages
concatenated in spawn order. -/
def expandAll (svc : Service) (owners : List String) : ExpandResult :=
  owners.foldl (fun acc tok => acc.append (expandowners svc tok)) ⟨[], [], []⟩

/-- `Match` (`codeowners.go:179`): select the last matching rule; if none
matched, return no users and the single `"Failed to find match"` error
without starting any expansion; otherwise expand every owner token of the
selected rule.  The result collects all messages of a run in which every
task completed (the aggregation loop under cancellation is modelled
separately by `aggLoop`). -/
def Match (co : CodeOwners) (svc : Service) (path : String) : ExpandResult :=
  match selectOwners co.patterns path with
  | none => ⟨[], [.noMatch], []⟩
  | some owners => expandAll svc owners

/-! ## The aggregation loop (`codeowners.go:206-228`)

The `select` races the context's `Done` channel against the `err` and
`data` channels; a run of the loop is determined by the sequence of
events the `select` delivers.  The model quantifies over that event
trace. -/

/-- One event delivered to the `select` of the aggregation loop. -/
inductive AggEvent where
  | ctxDone
  | errMsg (e : ExpErr)
  | errClosed
  | dataMsg (u : User)
  | dataClosed
deriving DecidableEq

/-- The mutable state of the aggregation loop: the named results `users`
and `error_slice`, and the two closed flags. -/
structure AggState where
  users : List User
  errSlice : List ExpErr
  errIsClosed : Bool
  dataIsClosed : Bool
deriving DecidableEq

/-- The state update of one loop iteration for a non-`ctxDone` event
(`codeowners.go:215-227`): append the message or set the closed flag. -/
def aggStep (s : AggState) : AggEvent → AggState
  | .ctxDone => s
  | .errMsg e => { s with errSlice := s.errSlice ++ [e] }
  | .errClosed => { s with errIsClosed := true }
  | .dataMsg u => { s with users := s.users ++ [u] }
  | .dataClosed => { s with dataIsClosed := true }

/-- The aggregation loop (`codeowners.go:207-228`): before each `select`
it returns the accumulated result once both channels are closed; on
`ctx.Done()` it returns the accumulated result at once (the bare `return`
returns the named values); otherwise it applies the event and loops.
`none` models a run whose trace ended with the loop still blocked. -/
def aggLoop : List AggEvent → AggState → Option (List User × List ExpErr)
  | evs, s =>
    if s.errIsClosed && s.dataIsClosed then some (s.users, s.errSlice)
    else
      match evs with
      | [] => none
      | .ctxDone :: _ => some (s.users, s.errSlice)
      | ev :: rest => aggLoop rest (aggStep s ev)

/-- The state after the loop has consumed a trace prefix. -/
def runPre (evs : List AggEvent) (s : AggState) : AggState :=
  evs.foldl aggStep s

/-- The loop's initial state: empty named results, both channels open. -/
def initAgg : AggState :=
  ⟨[], [], false, false⟩

/-! ## Helper lemmas -/

theorem selectOwnersAux_app (l1 l2 : List CodeOwner) (path : String) (acc : Option (List String)) :
    selectOwnersAux (l1 ++ l2) path acc = selectOwnersAux l2 path (selectOwnersAux l1 path acc) := by
  induction l1 generalizing acc with
  | nil => rfl
  | cons p ps ih =>
    simp only [List.cons_append, selectOwnersAux]
    exact ih _

theorem selectOwnersAux_skip (l : List CodeOwner) (path : String) (acc : Option (List String))
    (h : ∀ r ∈ l, dsMatchBool r.path path = false) :
    selectOwnersAux l path acc = acc := by
  induction l generalizing acc with
  | nil => rfl
  | cons p ps ih =>
    have hp : dsMatchBool p.path path = false := h p (by simp)
    simp only [selectOwnersAux, hp, Bool.false_eq_true, if_false]
    exact ih acc (fun r hr => h r (by simp [hr]))

/-- If no rule's pattern matches the path, `Match` returns the `noMatch`
error alone, with no users and no remote calls. -/
theorem match_none_of_all_false (co : CodeOwners) (svc : Service) (path : String)
    (h : ∀ r ∈ co.patterns, dsMatchBool r.path path = false) :
    Match co svc path = ⟨[], [.noMatch], []⟩ := by
  have hsel : selectOwners co.patterns path = none :=
    selectOwnersAux_skip co.patterns path none h
  simp [Match, hsel]

theorem expandAll_foldl (svc : Service) (owners : List String) (a : ExpandResult) :
    owners.foldl (fun acc tok => acc.append (expandowners svc tok)) a =
      ⟨a.users ++ (owners.map (fun t => (expandowners svc t).users)).flatten,
       a.errs ++ (owners.map (fun t => (expandowners svc t).errs)).flatten,
       a.calls ++ (owners.map (fun t => (expandowners svc t).calls)).flatten⟩ := by
  induction owners generalizing a with
  | nil => simp
  | cons t ts ih =>
    rw [List.foldl_cons, ih]
    simp [ExpandResult.append, List.append_assoc]

/-- The spawn loop's messages are exactly the concatenation of every
token's messages, token by token. -/
theorem expandAll_eq (svc : Service) (owners : List String) :
    expandAll svc owners =
      ⟨(owners.map (fun t => (expandowners svc t).users)).flatten,
       (owners.map (fun t => (expandowners svc t).errs)).flatten,
       (owners.map (fun t => (expandowners svc t).calls)).flatten⟩ := by
  simpa [expandAll] using expandAll_foldl svc owners ⟨[], [], []⟩

theorem fetchuser_calls (svc : Service) (name : String) :
    (fetchuser svc name).calls = [.getUser name] := by
  unfold fetchuser
  cases svc.getUser name <;> rfl

theorem expandMembers_eq (svc : Service) (members : List String) (base : ExpandResult) :
    expandMembers svc members base =
      ⟨base.users ++ (members.map (fun m => (fetchuser svc m).users)).flatten,
       base.errs ++ (members.map (fun m => (fetchuser svc m).errs)).flatten,
       base.calls ++ members.map RemoteCall.getUser⟩ := by
  induction members generalizing base with
  | nil => simp [expandMembers]
  | cons m ms ih =>
    show expandMembers svc ms (base.append (fetchuser svc m)) = _
    rw [ih]
    simp [ExpandResult.append, fetchuser_calls, List.append_assoc]

theorem splitOnChar_ne_nil (sep : Char) (l : List Char) : splitOnChar sep l ≠ [] := by
  cases l with
  | nil => simp [splitOnChar]
  | cons c cs =>
    by_cases h : c = sep
    · simp [splitOnChar, h]
    · simp only [splitOnChar, h, if_false]
      cases splitOnChar sep cs <;> simp

/-- The `**` pattern matches every path: the name always splits into at
least one segment, and a lone `**` segment matches any nonempty segment
list. -/
theorem starstar_matches_all (path : String) : dsMatchBool "**" path = true := by
  unfold dsMatchBool dsMatch
  have hp : splitOnChar '/' "**".toList = [['*', '*']] := by decide
  rw [hp]
  obtain ⟨n, ns, hn⟩ : ∃ n ns, splitOnChar '/' path.toList = n :: ns := by
    cases hc : splitOnChar '/' path.toList with
    | nil => exact absurd hc (splitOnChar_ne_nil _ _)
    | cons a as => exact ⟨a, as, rfl⟩
  rw [hn]
  simp [doMatching, exceptBool]

theorem foldl_app_eq_flatten {α β : Type} (f : α → List β) (l : List α) (a : List β) :
    l.foldl (fun acc x => acc ++ f x) a = a ++ (l.map f).flatten := by
  induction l generalizing a with
  | nil => simp
  | cons x xs ih => simp [ih]

theorem takeWhile_app_stop (p : Char → Bool) (xs : List Char) (y : Char) (ys : List Char)
    (hxs : ∀ x ∈ xs, p x = true) (hy : p y = false) :
    (xs ++ y :: ys).takeWhile p = xs := by
  induction xs with
  | nil => simp [List.takeWhile_cons, hy]
  | cons x xt ih =>
    have hx : p x = true := hxs x (by simp)
    simp only [List.cons_append, List.takeWhile_cons, hx, if_true]
    rw [ih (fun z hz => hxs z (by simp [hz]))]

theorem dropWhile_app_stop (p : Char → Bool) (xs : List Char) (y : Char) (ys : List Char)
    (hxs : ∀ x ∈ xs, p x = true) (hy : p y = false) :
    (xs ++ y :: ys).dropWhile p = y :: ys := by
  induction xs with
  | nil => simp [List.dropWhile_cons, hy]
  | cons x xt ih =>
    have hx : p x = true := hxs x (by simp)
    simp only [List.cons_append, List.dropWhile_cons, hx, if_true]
    exact ih (fun z hz => hxs z (by simp [hz]))

/-- The `'@'`/`'/'` split of a team token recovers org and slug whenever
the org part contains no slash. -/
theorem orgOf_slugOf_append (org slug : String) (h : '/' ∉ org.toList) :
    orgOf ("@" ++ org ++ "/" ++ slug) = org ∧ slugOf ("@" ++ org ++ "/" ++ slug) = slug := by
  have hdata : ("@" ++ org ++ "/" ++ slug).toList = '@' :: (org.toList ++ '/' :: slug.toList) := by
    show ("@" ++ org ++ "/" ++ slug).data = '@' :: (org.data ++ '/' :: slug.data)
    simp [String.data_append]
  have hall : ∀ x ∈ org.toList, (fun c => decide (c ≠ '/')) x = true := by
    intro x hx
    simp only [decide_eq_true_eq]
    intro hcontra
    exact h (hcontra ▸ hx)
  have hstop : (fun c => decide (c ≠ '/')) '/' = false := by decide
  constructor
  · show String.mk ((("@" ++ org ++ "/" ++ slug).toList.drop 1).takeWhile _) = org
    rw [hdata]
    simp only [List.drop_succ_cons, List.drop_zero]
    rw [takeWhile_app_stop _ org.toList '/' slug.toList hall hstop]
    exact String.ext rfl
  · show String.mk (((("@" ++ org ++ "/" ++ slug).toList.drop 1).dropWhile _).drop 1) = slug
    rw [hdata]
    simp only [List.drop_succ_cons, List.drop_zero]
    rw [dropWhile_app_stop _ org.toList '/' slug.toList hall hstop]
    exact String.ext rfl

theorem runPre_closed_mono (evs : List AggEvent) (s : AggState)
    (h : (s.errIsClosed && s.dataIsClosed) = true) :
    ((runPre evs s).errIsClosed && (runPre evs s).dataIsClosed) = true := by
  induction evs generalizing s with
  | nil => exact h
  | cons ev rest ih =>
    have hstep : ((aggStep s ev).errIsClosed && (aggStep s ev).dataIsClosed) = true := by
      cases ev <;> simp_all [aggStep]
    exact ih (aggStep s ev) hstep

/-! ## Concrete fixtures used by the witnesses -/

/-- A concrete service: org `"org"` has the team `"team"` with ID 72 and
members alice and bob; user lookups know alice and bob. -/
def svcW : Service :=
  ⟨fun o => if o = "org" then .ok [⟨"team", 72⟩] else .error "no org",
   fun i => if i = 72 then .ok [⟨some "alice", none, none⟩, ⟨some "bob", none, none⟩]
            else .error "no team",
   fun l => if l = "alice" then .ok ⟨some "alice", some "Alice", none⟩
            else if l = "bob" then .ok ⟨some "bob", some "Bob", none⟩
            else .error "no user"⟩

/-- A service whose org `"zorg"` lists the team `"zteam"` with recorded
ID 0 — the value `expandteam` uses as its not-found sentinel — and does
define that team's member list. -/
def svcZero : Service :=
  ⟨fun o => if o = "zorg" then .ok [⟨"zteam", 0⟩] else .error "no org",
   fun i => if i = 0 then .ok [⟨some "alice", none, none⟩] else .error "no team",
   fun l => .ok ⟨some l, none, none⟩⟩

/-- A rule file whose single rule mixes an invalid token with a valid
user handle. -/
def coMixed : CodeOwners :=
  ⟨"o", "r", [⟨"**", ["not-valid", "@alice"]⟩]⟩

/-! ## The claims -/

/-- Claim C1: `Match` selects the owners of the last rule whose glob
pattern matches the path — the selection loop scans every rule in file
order and each match overwrites the previous one, so rules after the
winning rule must not match while rules before it may — and `Match`
expands exactly the winning rule's owners. -/
theorem last_match_wins (co : CodeOwners) (svc : Service) (path : String)
    (pre post : List CodeOwner) (rule : CodeOwner)
    (hsplit : co.patterns = pre ++ rule :: post)
    (hm : dsMatchBool rule.path path = true)
    (hpost : ∀ r ∈ post, dsMatchBool r.path path = false) :
    Match co svc path = expandAll svc rule.owners := by
  have hsel : selectOwners co.patterns path = some rule.owners := by
    rw [selectOwners, hsplit, selectOwnersAux_app]
    show selectOwnersAux post path
      (if dsMatchBool rule.path path then some rule.owners else _) = _
    rw [hm]
    simp only [if_true]
    exact selectOwnersAux_skip post path _ hpost
  simp [Match, hsel]

/-- Claim C1 witness: for rules `[{"**": [@a]}, {"test/**": [@b]}]` and
path `"test/file.txt"`, the earlier `**` rule also matches but the later
`test/**` rule wins, so only `@b` is expanded. -/
theorem last_match_wins_witness :
    dsMatchBool "**" "test/file.txt" = true
      ∧ Match ⟨"o", "r", [⟨"**", ["@a"]⟩, ⟨"test/**", ["@b"]⟩]⟩ svcW "test/file.txt"
          = expandAll svcW ["@b"] :=
  ⟨by decide,
   last_match_wins ⟨"o", "r", [⟨"**", ["@a"]⟩, ⟨"test/**", ["@b"]⟩]⟩ svcW "test/file.txt"
     [⟨"**", ["@a"]⟩] [] ⟨"test/**", ["@b"]⟩ rfl (by decide) (by decide)⟩

/-- Claim C7: when no rule's pattern matches the path, `Match` returns
the `noMatch` (`"Failed to find match"`) error with no users and — the
empty `calls` list — before any token expansion or remote lookup starts;
and it is the only short-circuit: whenever a rule is selected, `Match` is
the full expansion of all its owner tokens, whatever errors occur. -/
theorem no_match_short_circuit (co : CodeOwners) (svc : Service) (path : String) :
    ((∀ r ∈ co.patterns, dsMatchBool r.path path = false) →
      Match co svc path = ⟨[], [.noMatch], []⟩)
    ∧ (∀ owners, selectOwners co.patterns path = some owners →
      Match co svc path = expandAll svc owners) := by
  constructor
  · exact fun h => match_none_of_all_false co svc path h
  · intro owners hsel
    simp [Match, hsel]

/-- Claim C7 witness: for rules `[{"docs/**": [@a]}]` and path
`"src/x.txt"` the result is the bare `noMatch` error with no users and no
remote calls. -/
theorem no_match_short_circuit_witness :
    Match ⟨"o", "r", [⟨"docs/**", ["@a"]⟩]⟩ svcW "src/x.txt" = ⟨[], [.noMatch], []⟩ :=
  (no_match_short_circuit ⟨"o", "r", [⟨"docs/**", ["@a"]⟩]⟩ svcW "src/x.txt").1 (by decide)

/-- Claim C10 (implicit): `Match` discards the glob matcher's error
(`match, _ := doublestar.Match(...)`), so a rule whose pattern is
rejected as malformed is treated as non-matching, and a manifest
consisting only of malformed patterns yields the `noMatch` result rather
than any pattern-syntax error. -/
theorem malformed_pattern_swallowed (co : CodeOwners) (svc : Service) (path p : String) :
    (dsMatch p path = .error () → dsMatchBool p path = false)
    ∧ ((∀ r ∈ co.patterns, dsMatch r.path path = .error ()) →
        Match co svc path = ⟨[], [.noMatch], []⟩) := by
  constructor
  · intro h
    rw [dsMatchBool, h]
    rfl
  · intro h
    refine match_none_of_all_false co svc path (fun r hr => ?_)
    rw [dsMatchBool, h r hr]
    rfl

/-- Claim C10 witness: the malformed pattern `"["` (unclosed character
class) is rejected by the matcher, and a manifest holding only that rule
yields the `noMatch` result for `"file.txt"`. -/
theorem malformed_pattern_swallowed_witness :
    dsMatch "[" "file.txt" = .error ()
      ∧ Match ⟨"o", "r", [⟨"[", ["@a"]⟩]⟩ svcW "file.txt" = ⟨[], [.noMatch], []⟩ :=
  ⟨by decide,
   (malformed_pattern_swallowed ⟨"o", "r", [⟨"[", ["@a"]⟩]⟩ svcW "file.txt" "[").2
     (by decide)⟩

/-- Claim C8: the manifest loop rewrites a rule whose pattern is the lone
token `"*"` to `"**"`, which matches every path (the split of any path
has at least one segment and a lone `**` segment matches any nonempty
segment list); any other pattern is stored unchanged. -/
theorem root_wildcard_normalization (line w0 w1 : String) (ws : List String) (path : String) :
    (strFields line = w0 :: w1 :: ws →
      (w0 = "*" → parseLine line = [⟨"**", w1 :: ws⟩])
        ∧ (w0 ≠ "*" → parseLine line = [⟨w0, w1 :: ws⟩]))
    ∧ dsMatchBool "**" path = true := by
  constructor
  · intro hf
    constructor
    · intro hw
      simp [parseLine, hf, hw]
    · intro hw
      simp [parseLine, hf, hw]
  · exact starstar_matches_all path

/-- Claim C8 witness: the line `"* @a"` is stored as the rule
`{"**": [@a]}`, and `"**"` matches the nested path
`"dir/sub/file.txt"`. -/
theorem root_wildcard_normalization_witness :
    parseLine "* @a" = [⟨"**", ["@a"]⟩] ∧ dsMatchBool "**" "dir/sub/file.txt" = true :=
  ⟨((root_wildcard_normalization "* @a" "*" "@a" [] "dir/sub/file.txt").1
      (by decide)).1 rfl,
   (root_wildcard_normalization "* @a" "*" "@a" [] "dir/sub/file.txt").2⟩

/-- Claim C9 counterexample: the manifest loop has no comment handling —
the comment line `"# hello world"` has three whitespace-separated fields,
so it contributes a rule (pattern `"#"`, owners `hello world`), where the
claim says a comment line contributes no rule. -/
theorem comment_line_contributes_rule :
    getPatterns "# hello world" = [⟨"#", ["hello", "world"]⟩]
      ∧ getPatterns "# hello world" ≠ [] :=
  ⟨by decide, by decide⟩

/-- Claim C9 (amended): building the rule sequence from the manifest text
splits it on newlines and turns each line with at least two
whitespace-separated fields — comment lines included — into exactly one
rule, in line order: the first field (a lone `"*"` rewritten to `"**"`)
is the pattern and the remaining fields, in order, are the owners; lines
with fewer than two fields contribute no rule. -/
theorem manifest_rule_lines (content line w0 w1 : String) (ws : List String) :
    (getPatterns content
        = (((splitOnChar '\n' content.toList).map String.mk).map parseLine).flatten)
    ∧ ((strFields line).length < 2 → parseLine line = [])
    ∧ (strFields line = w0 :: w1 :: ws →
        parseLine line = [⟨if w0 = "*" then "**" else w0, w1 :: ws⟩]) := by
  refine ⟨?_, ?_, ?_⟩
  · rw [getPatterns]
    simpa using foldl_app_eq_flatten parseLine
      ((splitOnChar '\n' content.toList).map String.mk) []
  · intro h
    rw [parseLine]
    cases hf : strFields line with
    | nil => rfl
    | cons a as =>
      cases as with
      | nil => rfl
      | cons b bs =>
        rw [hf] at h
        exact absurd h (by simp)
  · intro hf
    simp [parseLine, hf]

/-- Claim C9 witness: the line `"* @a @b"` contributes exactly the rule
`{"**": [@a, @b]}` and the one-field line `"x"` contributes nothing. -/
theorem manifest_rule_lines_witness :
    parseLine "* @a @b" = [⟨"**", ["@a", "@b"]⟩] ∧ parseLine "x" = [] := by
  constructor
  · have h := (manifest_rule_lines "" "* @a @b" "*" "@a" ["@b"]).2.2 (by decide)
    simpa using h
  · exact (manifest_rule_lines "" "x" "" "" []).2.1 (by decide)

/-- Claim C3: token classification is total and deterministic (a Lean
function) and applies its four rules in order: a token starting with `@`
and containing `/` is a team ref, org the text between `@` and the first
`/` and slug the text after it; else `@` means a user handle (text after
`@`); else a token containing `@` is an email; else the token is invalid
and `expandowners` emits the `invalidToken` error for it.  The four
boolean conditions make the cases exhaustive and mutually exclusive, and
`expandowners` dispatches accordingly. -/
theorem token_classification (svc : Service) (tok : String) :
    (startsWithAt tok = true → containsChar tok '/' = true →
      classify tok = .teamRef (orgOf tok) (slugOf tok)
        ∧ expandowners svc tok = expandteam svc tok)
    ∧ (startsWithAt tok = true → containsChar tok '/' = false →
      classify tok = .userHandle (dropFirst tok)
        ∧ expandowners svc tok = fetchuser svc (dropFirst tok))
    ∧ (startsWithAt tok = false → containsChar tok '@' = true →
      classify tok = .email tok ∧ expandowners svc tok = finduseremail tok)
    ∧ (startsWithAt tok = false → containsChar tok '@' = false →
      classify tok = .invalid tok
        ∧ expandowners svc tok = ⟨[], [.invalidToken tok], []⟩) := by
  refine ⟨?_, ?_, ?_, ?_⟩ <;>
    · intro h1 h2
      constructor <;> simp [classify, expandowners, h1, h2]

/-- Claim C3 witness: one token of each of the four kinds. -/
theorem token_classification_witness :
    classify "@org/team" = .teamRef "org" "team"
      ∧ classify "@alice" = .userHandle "alice"
      ∧ classify "owners@example.com" = .email "owners@example.com"
      ∧ classify "not-valid" = .invalid "not-valid"
      ∧ expandowners svcW "not-valid" = ⟨[], [.invalidToken "not-valid"], []⟩ := by
  refine ⟨?_, ?_, ?_, ?_, ?_⟩
  · exact (((token_classification svcW "@org/team").1 (by decide) (by decide)).1).trans
      (by decide)
  · exact (((token_classification svcW "@alice").2.1 (by decide) (by decide)).1).trans
      (by decide)
  · exact ((token_classification svcW "owners@example.com").2.2.1 (by decide) (by decide)).1
  · exact ((token_classification svcW "not-valid").2.2.2 (by decide) (by decide)).1
  · exact ((token_classification svcW "not-valid").2.2.2 (by decide) (by decide)).2

/-- Claim C4: expansion is best-effort — whenever a rule is selected, the
users and the errors `Match` returns are exactly the concatenation, token
by token, of every owner token's own users and errors, so an error of one
token (invalid token, team not found, bad email, remote failure) never
suppresses the expansion of its siblings, and the partial identity list
is returned together with the full error list. -/
theorem best_effort_aggregation (co : CodeOwners) (svc : Service) (path : String)
    (owners : List String) (hsel : selectOwners co.patterns path = some owners) :
    (Match co svc path).users = (owners.map (fun t => (expandowners svc t).users)).flatten
    ∧ (Match co svc path).errs = (owners.map (fun t => (expandowners svc t).errs)).flatten := by
  have hm : Match co svc path = expandAll svc owners := by simp [Match, hsel]
  rw [hm, expandAll_eq]
  exact ⟨rfl, rfl⟩

/-- Claim C4 witness: a rule holding the invalid token `"not-valid"` next
to the valid handle `"@alice"` yields the one `invalidToken` error while
alice still resolves. -/
theorem best_effort_aggregation_witness :
    (Match coMixed svcW "file.txt").users = [⟨some "alice", some "Alice", none⟩]
      ∧ (Match coMixed svcW "file.txt").errs = [.invalidToken "not-valid"] := by
  have h := best_effort_aggregation coMixed svcW "file.txt" ["not-valid", "@alice"] (by decide)
  exact ⟨h.1.trans (by decide), h.2.trans (by decide)⟩

/-- Claim C2 counterexample: the service lists, for org `"zorg"`, a team
whose slug equals the token's slug `"zteam"`, yet `expandteam` on
`"@zorg/zteam"` reports `teamNotFound` and fetches no member list — the
listed team's recorded ID is 0, which the selection loop cannot
distinguish from absence (`teamid == 0` sentinel, `codeowners.go:115`). -/
theorem team_zero_id_counterexample :
    svcZero.listTeams "zorg" = .ok [⟨"zteam", 0⟩]
      ∧ expandteam svcZero "@zorg/zteam"
          = ⟨[], [.teamNotFound "zteam"], [.listTeams "zorg"]⟩ :=
  ⟨by decide, by decide⟩

theorem findTeamId_zero_of_no_match (teams : List Team) (slug : String)
    (h : ∀ t ∈ teams, slug ≠ t.slug) : findTeamId teams slug = 0 := by
  induction teams with
  | nil => rfl
  | cons t ts ih =>
    have hne : slug ≠ t.slug := h t (by simp)
    simp only [findTeamId, hne, if_false]
    exact ih (fun u hu => h u (by simp [hu]))

/-- Claim C2 (amended): `expandteam` lists the org's teams and selects
the first team whose slug equals the token's slug (case-sensitively); it
signals `teamNotFound` exactly when the selected ID is the 0 sentinel —
in particular whenever no team's slug matches, but also when the first
matching team's recorded ID is 0; with a nonzero selected ID it fetches
that team's member list and spawns exactly one user fetch per member, so
members alice and bob yield exactly alice's and bob's records. -/
theorem team_expansion (svc : Service) (org slug : String) (teams : List Team)
    (hslash : '/' ∉ org.toList)
    (hteams : svc.listTeams org = .ok teams) :
    ((∀ t ∈ teams, slug ≠ t.slug) → findTeamId teams slug = 0)
    ∧ (findTeamId teams slug = 0 →
        expandteam svc ("@" ++ org ++ "/" ++ slug)
          = ⟨[], [.teamNotFound slug], [.listTeams org]⟩)
    ∧ (∀ members, findTeamId teams slug ≠ 0 →
        svc.listTeamMembers (findTeamId teams slug) = .ok members →
        expandteam svc ("@" ++ org ++ "/" ++ slug)
          = ⟨((memberLogins members).map (fun m => (fetchuser svc m).users)).flatten,
             ((memberLogins members).map (fun m => (fetchuser svc m).errs)).flatten,
             [.listTeams org, .listTeamMembers (findTeamId teams slug)]
               ++ (memberLogins members).map RemoteCall.getUser⟩) := by
  obtain ⟨horg, hslug⟩ := orgOf_slugOf_append org slug hslash
  refine ⟨findTeamId_zero_of_no_match teams slug, ?_, ?_⟩
  · intro hzero
    rw [expandteam, horg, hteams, hslug]
    simp [hzero]
  · intro members hnz hmem
    rw [expandteam, horg, hteams, hslug]
    simp only [hnz, hmem, if_false]
    rw [expandMembers_eq]
    simp

/-- Claim C2 witness: for the token `"@org/team"` against `svcW`, the
team (ID 72) is found and its two members are fetched, one user lookup
each; for the token `"@org/none"` no slug matches and the result is the
bare `teamNotFound` error. -/
theorem team_expansion_witness :
    expandteam svcW "@org/team"
      = ⟨[⟨some "alice", some "Alice", none⟩, ⟨some "bob", some "Bob", none⟩], [],
         [.listTeams "org", .listTeamMembers 72, .getUser "alice", .getUser "bob"]⟩
      ∧ expandteam svcW "@org/none"
          = ⟨[], [.teamNotFound "none"], [.listTeams "org"]⟩ := by
  constructor
  · have h := (team_expansion svcW "org" "team" [⟨"team", 72⟩] (by decide) (by decide)).2.2
      [⟨some "alice", none, none⟩, ⟨some "bob", none, none⟩] (by decide) (by decide)
    exact h.trans (by decide)
  · have h := (team_expansion svcW "org" "none" [⟨"team", 72⟩] (by decide) (by decide)).2.1
      (by decide)
    exact h.trans (by decide)

/-- Claim C6 counterexample: the valid email token `"<bob@x.com>"` yields
a record whose email field is the parsed address `"bob@x.com"`, which
differs from the token's address text — `finduseremail` sends
`e.Address`, the canonical form, not the raw token
(`codeowners.go:93-95`). -/
theorem email_canonicalized_counterexample :
    finduseremail "<bob@x.com>" = ⟨[⟨none, none, some "bob@x.com"⟩], [], []⟩
      ∧ ("bob@x.com" : String) ≠ "<bob@x.com>" :=
  ⟨by decide, by decide⟩

/-- Claim C6 (amended): for an email token the address syntax is
validated; on success expansion yields exactly one synthetic record whose
email field is the *parsed* address — equal to the token itself for a
plain address such as `"owners@example.com"` — with login and name unset
and no remote call; on failure it signals the parse error and yields no
identity. -/
theorem email_expansion (e : String) :
    (∀ a, parseAddress e = .ok a →
      finduseremail e = ⟨[⟨none, none, some a⟩], [], []⟩)
    ∧ (∀ msg, parseAddress e = .error msg →
      finduseremail e = ⟨[], [.parseMail msg], []⟩) := by
  constructor <;>
    · intro x hx
      rw [finduseremail, hx]

/-- Claim C6 witness: the token `"owners@example.com"` yields exactly the
record with that email and no remote call; the invalid address
`"bad@"` yields the parse error and no identity. -/
theorem email_expansion_witness :
    finduseremail "owners@example.com"
        = ⟨[⟨none, none, some "owners@example.com"⟩], [], []⟩
      ∧ finduseremail "bad@" = ⟨[], [.parseMail "mail: no angle-addr"], []⟩ :=
  ⟨(email_expansion "owners@example.com").1 "owners@example.com" (by decide),
   (email_expansion "bad@").2 "mail: no angle-addr" (by decide)⟩

/-- Claim C5: if the context's cancellation fires before both result
channels have closed — that is, before all spawned tasks were seen to
complete — the aggregation loop returns at once exactly the users and
errors accumulated from the events delivered before the cancellation,
consuming none of the events after it (it does not wait for outstanding
tasks, whatever they would still deliver). -/
theorem cancellation_returns_partial (pre rest : List AggEvent)
    (hnd : AggEvent.ctxDone ∉ pre)
    (hopen : ((runPre pre initAgg).errIsClosed && (runPre pre initAgg).dataIsClosed) = false) :
    aggLoop (pre ++ AggEvent.ctxDone :: rest) initAgg
      = some ((runPre pre initAgg).users, (runPre pre initAgg).errSlice) := by
  suffices h : ∀ (p : List AggEvent) (s : AggState), AggEvent.ctxDone ∉ p →
      ((runPre p s).errIsClosed && (runPre p s).dataIsClosed) = false →
      aggLoop (p ++ AggEvent.ctxDone :: rest) s
        = some ((runPre p s).users, (runPre p s).errSlice) from
    h pre initAgg hnd hopen
  intro p
  induction p with
  | nil =>
    intro s _ hop
    have hsc : (s.errIsClosed && s.dataIsClosed) = false := hop
    rw [List.nil_append, aggLoop, if_neg (by simp [hsc])]
    rfl
  | cons ev evs ih =>
    intro s hmem hop
    have hev : ev ≠ AggEvent.ctxDone := fun hc => hmem (by simp [hc])
    have hcur : (s.errIsClosed && s.dataIsClosed) = false := by
      by_contra hc
      have htrue : (s.errIsClosed && s.dataIsClosed) = true := by
        cases hb : (s.errIsClosed && s.dataIsClosed)
        · exact absurd hb hc
        · rfl
      have := runPre_closed_mono (ev :: evs) s htrue
      rw [this] at hop
      cases hop
    have hstep : aggLoop ((ev :: evs) ++ AggEvent.ctxDone :: rest) s
        = aggLoop (evs ++ AggEvent.ctxDone :: rest) (aggStep s ev) := by
      cases ev with
      | ctxDone => exact absurd rfl hev
      | errMsg e =>
        rw [List.cons_append, aggLoop, if_neg (by simp [hcur])]
        simp
      | errClosed =>
        rw [List.cons_append, aggLoop, if_neg (by simp [hcur])]
        simp
      | dataMsg u =>
        rw [List.cons_append, aggLoop, if_neg (by simp [hcur])]
        simp
      | dataClosed =>
        rw [List.cons_append, aggLoop, if_neg (by simp [hcur])]
        simp
    rw [hstep]
    have hrun : runPre (ev :: evs) s = runPre evs (aggStep s ev) := rfl
    rw [hrun] at hop ⊢
    exact ih (aggStep s ev) (fun hm => hmem (by simp [hm])) hop

/-- Claim C5 witness: after one user arrived and the error channel
closed, a cancellation makes the loop return exactly that one user and no
errors, ignoring the user that would have arrived later. -/
theorem cancellation_returns_partial_witness :
    aggLoop [AggEvent.dataMsg ⟨some "alice", none, none⟩, AggEvent.errClosed,
             AggEvent.ctxDone, AggEvent.dataMsg ⟨some "bob", none, none⟩] initAgg
      = some ([⟨some "alice", none, none⟩], []) := by
  have h := cancellation_returns_partial
    [AggEvent.dataMsg ⟨some "alice", none, none⟩, AggEvent.errClosed]
    [AggEvent.dataMsg ⟨some "bob", none, none⟩] (by decide) (by decide)
  exact h.trans (by decide)

end Codeowners
